import Mathlib

/-!
Verification of the vocode-python streaming core against its specification.

This file shallowly embeds the core of the repository (the interruptible
event/worker runtime, the agent turn handlers, the synthesizer chunking and
message-cutoff functions, and the transcriber silent-chunk replacement) as
executable Lean definitions translated from the Python source, and proves or
refutes the specified properties about them.

Conventions of the embedding:
- Python byte strings are `List Nat` (each entry one byte).
- Python floats are idealized as rationals `ℚ` (exact arithmetic).
- Python functions that can raise are `Option`/`Except` valued.
- The shared `threading.Event` interruption flag of an `InterruptableEvent`
  is modelled as a `Bool` field recording whether the shared flag is set;
  sharing is represented by quantifying over that field's value.
-/

namespace Vocode

/-! ## Worker runtime and event types (vocode/streaming/utils/worker.py) -/

/-- `InterruptableEvent` from `worker.py`: a payload, the `is_interruptable`
flag, and the state of the shared `threading.Event` interruption flag
(`interruption_event.is_set()`). -/
structure InterruptableEvent (P : Type) where
  payload : P
  is_interruptable : Bool
  interruption_event : Bool
  deriving Repr, DecidableEq

/-- `InterruptableEvent.interrupt`: returns True if the event was
interruptable and is now interrupted; the second component is the state of
the event (and its shared flag) after the call. -/
def InterruptableEvent.interrupt {P : Type} (e : InterruptableEvent P) :
    Bool × InterruptableEvent P :=
  if !e.is_interruptable then
    (false, e)
  else
    (true, { e with interruption_event := true })

/-- `InterruptableEvent.is_interrupted`: `self.is_interruptable and
self.interruption_event.is_set()`. -/
def InterruptableEvent.is_interrupted {P : Type} (e : InterruptableEvent P) : Bool :=
  e.is_interruptable && e.interruption_event

/-- How the awaited `process` task of an `InterruptableWorker` iteration ends:
normally, with a non-cancellation exception (logged, loop continues), or with
`asyncio.CancelledError` (the run loop returns). -/
inductive ProcessResult
  | ok
  | excepted
  | cancelled
  deriving Repr, DecidableEq

/-- What `InterruptableWorker._run_loop` did with one dequeued item:
dropped it silently (its interruption flag was observed set, `process` was
never called), or ran `process` on it. For a processed item we record the
dequeued event `e`, the state `e_after` of that event object after the
iteration (its `is_interruptable` is forced to `False` on line 223 of
`worker.py` unless the task was cancelled, in which case the loop returns
before that line), and how the task ended. -/
inductive ItemOutcome (P : Type)
  | dropped (e : InterruptableEvent P)
  | processed (e : InterruptableEvent P) (e_after : InterruptableEvent P)
      (r : ProcessResult)
  deriving Repr, DecidableEq

/-- The event an outcome is about: the dequeued item. -/
def ItemOutcome.source {P : Type} : ItemOutcome P → InterruptableEvent P
  | .dropped e => e
  | .processed e _ _ => e

/-- `InterruptableWorker._run_loop` over a finite queue of already-enqueued
items, with the ending of each `process` task given by the oracle `pr`.
Per iteration: dequeue, drop if `is_interrupted()`, otherwise await
`process(item)`; on `asyncio.CancelledError` return (remaining items are
left unconsumed), on any other exception log and continue; after a
completed (non-cancelled) task the event's `is_interruptable` is set to
`False` and the current-task slot is cleared. The returned trace lists the
outcomes in dequeue order. -/
def run_loop {P : Type} (pr : InterruptableEvent P → ProcessResult) :
    List (InterruptableEvent P) → List (ItemOutcome P)
  | [] => []
  | item :: rest =>
    if item.is_interrupted then
      .dropped item :: run_loop pr rest
    else if pr item = .cancelled then
      [.processed item item .cancelled]
    else
      .processed item { item with is_interruptable := false } (pr item) ::
        run_loop pr rest

/-- The `current_task` slot of an `InterruptableWorker` together with the
retained `interruptable_event`: `none` when no task is in flight (as after a
completed iteration, which sets `self.current_task = None`), otherwise the
task's `done()` status paired with the retained event. -/
def WorkerTaskSlot (P : Type) : Type :=
  Option (Bool × InterruptableEvent P)

/-- `InterruptableWorker.cancel_current_task`: cancels the in-flight task
only if there is one, it is not done, and the retained event is still marked
interruptable (`asyncio.Task.cancel` on a task that is not done returns
`True`); in every other case returns `False`. -/
def cancel_current_task {P : Type} : WorkerTaskSlot P → Bool
  | none => false
  | some (task_done, ev) => !task_done && ev.is_interruptable

/-- Helper: a `processed _ _ .ok` outcome in a run-loop trace always carries
the dequeued event with its `is_interruptable` flag forced to `false`. -/
theorem run_loop_ok_forces_flag {P : Type}
    (pr : InterruptableEvent P → ProcessResult)
    (queue : List (InterruptableEvent P)) (e e_after : InterruptableEvent P)
    (hmem : ItemOutcome.processed e e_after .ok ∈ run_loop pr queue) :
    e_after = { e with is_interruptable := false } := by
  induction queue with
  | nil => simp [run_loop] at hmem
  | cons item rest ih =>
    by_cases hi : item.is_interrupted
    · rw [run_loop, if_pos hi] at hmem
      rcases List.mem_cons.mp hmem with heq | hmem
      · simp at heq
      · exact ih hmem
    · by_cases hc : pr item = ProcessResult.cancelled
      · rw [run_loop, if_neg hi, if_pos hc] at hmem
        rcases List.mem_cons.mp hmem with heq | hmem
        · rw [ItemOutcome.processed.injEq] at heq
          exact absurd heq.2.2 (by simp)
        · simp at hmem
      · rw [run_loop, if_neg hi, if_neg hc] at hmem
        rcases List.mem_cons.mp hmem with heq | hmem
        · rw [ItemOutcome.processed.injEq] at heq
          obtain ⟨rfl, h2, -⟩ := heq
          exact h2
        · exact ih hmem

/-! ### Claims C2, C10, C3, C4 -/

/-- C2: for every `InterruptableEvent` constructed with
`is_interruptable = false`, `interrupt` returns `false` and leaves the event
entirely unchanged: the shared interruption flag is not set by the call and
the payload and `is_interruptable` field are untouched. -/
theorem C2_interrupt_on_non_interruptable {P : Type} (e : InterruptableEvent P)
    (h : e.is_interruptable = false) :
    e.interrupt = (false, e) := by
  simp [InterruptableEvent.interrupt, h]

theorem C2_interrupt_on_non_interruptable_witness :
    (InterruptableEvent.mk (P := Nat) 7 false false).interrupt =
      (false, InterruptableEvent.mk 7 false false) :=
  C2_interrupt_on_non_interruptable (InterruptableEvent.mk 7 false false) rfl

/-- C10: an `InterruptableEvent` with `is_interruptable = false` reports
`is_interrupted() = false` even when its shared `interruption_event` has been
set (for example through another event holding the same flag), and therefore
such an event is never dropped by the worker's pre-process interruption
check: no `dropped` outcome for it appears in any run-loop trace. -/
theorem C10_non_interruptable_never_skipped {P : Type} (e : InterruptableEvent P)
    (h : e.is_interruptable = false) :
    e.is_interrupted = false ∧
      ∀ (pr : InterruptableEvent P → ProcessResult)
        (queue : List (InterruptableEvent P)),
        ItemOutcome.dropped e ∉ run_loop pr queue := by
  have hint : e.is_interrupted = false := by
    simp [InterruptableEvent.is_interrupted, h]
  refine ⟨hint, ?_⟩
  intro pr queue
  induction queue with
  | nil => simp [run_loop]
  | cons item rest ih =>
    by_cases hi : item.is_interrupted
    · rw [run_loop, if_pos hi]
      intro hmem
      rcases List.mem_cons.mp hmem with heq | hmem
      · rw [ItemOutcome.dropped.injEq] at heq
        subst heq
        simp [hint] at hi
      · exact ih hmem
    · by_cases hc : pr item = ProcessResult.cancelled
      · rw [run_loop, if_neg hi, if_pos hc]
        intro hmem
        rcases List.mem_cons.mp hmem with heq | hmem
        · simp at heq
        · simp at hmem
      · rw [run_loop, if_neg hi, if_neg hc]
        intro hmem
        rcases List.mem_cons.mp hmem with heq | hmem
        · simp at heq
        · exact ih hmem

theorem C10_non_interruptable_never_skipped_witness :
    (InterruptableEvent.mk (P := Nat) 3 false true).is_interrupted = false ∧
      ∀ (pr : InterruptableEvent Nat → ProcessResult)
        (queue : List (InterruptableEvent Nat)),
        ItemOutcome.dropped (InterruptableEvent.mk 3 false true) ∉
          run_loop pr queue :=
  C10_non_interruptable_never_skipped (InterruptableEvent.mk 3 false true) rfl

/-- C3: whenever a `process` call in the run loop completes successfully,
the event's `is_interruptable` is `false` afterwards; consequently a later
`interrupt` on it returns `false` (and does not set the flag), its
`is_interrupted()` is `false`, and `cancel_current_task` invoked after
completion returns `false` without cancelling anything — both because the
task slot has been cleared (`current_task = None`) and, were the slot still
populated with the completed event, because the retained event is no longer
marked interruptable. -/
theorem C3_completed_event_not_interruptable {P : Type}
    (pr : InterruptableEvent P → ProcessResult)
    (queue : List (InterruptableEvent P))
    (e e_after : InterruptableEvent P)
    (hmem : ItemOutcome.processed e e_after .ok ∈ run_loop pr queue) :
    e_after.is_interruptable = false ∧
      e_after.interrupt = (false, e_after) ∧
      e_after.is_interrupted = false ∧
      cancel_current_task (P := P) none = false ∧
      cancel_current_task (some (true, e_after)) = false ∧
      cancel_current_task (some (false, e_after)) = false := by
  have hafter := run_loop_ok_forces_flag pr queue e e_after hmem
  subst hafter
  refine ⟨rfl, ?_, ?_, rfl, ?_, ?_⟩
  · simp [InterruptableEvent.interrupt]
  · simp [InterruptableEvent.is_interrupted]
  · simp [cancel_current_task]
  · simp [cancel_current_task]

theorem C3_completed_event_not_interruptable_witness :
    (InterruptableEvent.mk (P := Nat) 5 false false).is_interruptable = false ∧
      (InterruptableEvent.mk (P := Nat) 5 false false).interrupt =
        (false, InterruptableEvent.mk 5 false false) ∧
      (InterruptableEvent.mk (P := Nat) 5 false false).is_interrupted = false ∧
      cancel_current_task (P := Nat) none = false ∧
      cancel_current_task (some (true, InterruptableEvent.mk 5 false false)) = false ∧
      cancel_current_task (some (false, InterruptableEvent.mk 5 false false)) = false :=
  C3_completed_event_not_interruptable (fun _ => ProcessResult.ok)
    [InterruptableEvent.mk 5 true false] (InterruptableEvent.mk 5 true false)
    (InterruptableEvent.mk 5 false false) (by decide)

/-- C4: in every iteration of the run loop, a dequeued event observed
interrupted at dequeue time is dropped silently and `process` is never
called on it, and — provided no `process` task ends in cancellation, which
is the only exit of the loop — every event placed on the input queue is
consumed exactly once: the trace has exactly one outcome per queued event,
in queue order, and an event's outcome is a drop precisely when it was
observed interrupted at dequeue time (otherwise it is processed exactly
once). -/
theorem C4_each_event_consumed_once {P : Type}
    (pr : InterruptableEvent P → ProcessResult)
    (queue : List (InterruptableEvent P))
    (hnc : ∀ e, pr e ≠ .cancelled) :
    (run_loop pr queue).map ItemOutcome.source = queue ∧
      ∀ o ∈ run_loop pr queue,
        (o.source.is_interrupted = true ↔ o = ItemOutcome.dropped o.source) ∧
          (o.source.is_interrupted = false →
            o = ItemOutcome.processed o.source
              { o.source with is_interruptable := false } (pr o.source)) := by
  induction queue with
  | nil => simp [run_loop]
  | cons item rest ih =>
    by_cases hi : item.is_interrupted
    · rw [run_loop, if_pos hi]
      refine ⟨by simpa [ItemOutcome.source] using ih.1, ?_⟩
      intro o ho
      rcases List.mem_cons.mp ho with rfl | hmem
      · simp [ItemOutcome.source, hi]
      · exact ih.2 o hmem
    · have hc : ¬pr item = ProcessResult.cancelled := hnc item
      rw [run_loop, if_neg hi, if_neg hc]
      refine ⟨by simpa [ItemOutcome.source] using ih.1, ?_⟩
      intro o ho
      rcases List.mem_cons.mp ho with rfl | hmem
      · simp [ItemOutcome.source, hi]
      · exact ih.2 o hmem

theorem C4_each_event_consumed_once_witness :
    (run_loop (fun _ => ProcessResult.ok)
          [InterruptableEvent.mk (P := Nat) 1 true true,
            InterruptableEvent.mk 2 true false]).map ItemOutcome.source =
        [InterruptableEvent.mk 1 true true, InterruptableEvent.mk 2 true false] ∧
      ∀ o ∈ run_loop (fun _ => ProcessResult.ok)
            [InterruptableEvent.mk (P := Nat) 1 true true,
              InterruptableEvent.mk 2 true false],
        (o.source.is_interrupted = true ↔ o = ItemOutcome.dropped o.source) ∧
          (o.source.is_interrupted = false →
            o = ItemOutcome.processed o.source
              { o.source with is_interruptable := false }
              ((fun _ => ProcessResult.ok) o.source)) :=
  C4_each_event_consumed_once (fun _ => ProcessResult.ok)
    [InterruptableEvent.mk 1 true true, InterruptableEvent.mk 2 true false]
    (fun _ h => ProcessResult.noConfusion h)

/-! ## Agent (vocode/streaming/agent/base_agent.py)

The turn handlers `RespondAgent.handle_respond`,
`RespondAgent.handle_generate_response` and `RespondAgent.process` are
embedded as pure functions over oracles for their external collaborators:
the underlying model call `respond` / `generate_response` (its outcome is
passed in), and the goodbye-detection task (its 100 ms bounded wait's
outcome is passed in). Tracing spans, logging and the transcript appends
have no bearing on the emitted agent responses and are not modelled here;
the functions return the list of `AgentResponse` payloads produced on the
output queue, in emission order. -/

/-- `BaseMessage` (vocode/streaming/models/message.py): the text payload of
a message. -/
structure BaseMessage where
  text : String
  deriving Repr, DecidableEq

/-- `FunctionCall` (vocode/streaming/models/actions.py): name and
JSON-encoded arguments of a tool invocation in the model's output stream. -/
structure FunctionCall where
  name : String
  arguments : String
  deriving Repr, DecidableEq

/-- `AgentResponse` tagged variants from `base_agent.py`. -/
inductive AgentResponse
  | message (message : BaseMessage) (is_interruptable : Bool)
  | stop
  | filler_audio
  | back_tracking_audio
  | follow_up_audio (seconds_spoken : ℚ)
  deriving Repr, DecidableEq

/-- `Transcription` (vocode/streaming/transcriber/base_transcriber.py). -/
structure Transcription where
  message : String
  confidence : ℚ
  is_final : Bool
  is_interrupt : Bool
  deriving Repr, DecidableEq

/-- `AgentInput` tagged variants from `base_agent.py`. For an
`ActionResultAgentInput` we keep the JSON serialization of
`action_output.response` (the only part of it `process` reads) and the
`is_quiet` flag. -/
inductive AgentInput
  | transcription_input (conversation_id : String) (transcription : Transcription)
  | action_result_input (conversation_id : String) (action_response_json : String)
      (is_quiet : Bool)
  deriving Repr, DecidableEq

/-- The `AgentConfig` fields `RespondAgent.process` and its turn handlers
read. -/
structure AgentConfigModel where
  generate_responses : Bool
  allow_agent_to_be_cut_off : Bool
  send_filler_audio : Bool
  end_conversation_on_goodbye : Bool
  deriving Repr, DecidableEq

/-- `RespondAgent.handle_respond`, with the outcome of the underlying
`self.respond(...)` call passed in: either an exception (with its message)
or the pair `(response, should_stop)`; `response` is `Optional[str]`.
Returns the emitted `AgentResponseMessage` payloads and the returned
`should_stop` boolean. On an exception the error is logged and the handler
returns `True` (the dead store `response = None` in the source happens just
before that `return True`); on a falsy response (Python `None` or the empty
string) nothing is emitted and `False` is returned; otherwise one message is
emitted with `is_interruptable = allow_agent_to_be_cut_off` and `should_stop`
is returned. -/
def handle_respond (respond_outcome : Except String (Option String × Bool))
    (allow_agent_to_be_cut_off : Bool) : List AgentResponse × Bool :=
  match respond_outcome with
  | .error _ => ([], true)
  | .ok (response, should_stop) =>
    match response with
    | some text =>
      if !text.isEmpty then
        ([.message ⟨text⟩ allow_agent_to_be_cut_off], should_stop)
      else
        ([], false)
    | none => ([], false)

/-- The `async for response, is_interruptable in responses` loop of
`RespondAgent.handle_generate_response`: a `FunctionCall` item is recorded
as the (last seen) function call and emits nothing; a text item emits an
`AgentResponseMessage` whose `is_interruptable` is
`allow_agent_to_be_cut_off and is_interruptable`. Returns the emitted
messages in order and the recorded function call. -/
def generate_response_loop (allow_agent_to_be_cut_off : Bool) :
    List ((String ⊕ FunctionCall) × Bool) → Option FunctionCall →
      List AgentResponse × Option FunctionCall
  | [], function_call => ([], function_call)
  | (.inr f, _) :: rest, _ =>
    generate_response_loop allow_agent_to_be_cut_off rest (some f)
  | (.inl text, is_interruptable) :: rest, function_call =>
    (.message ⟨text⟩ (allow_agent_to_be_cut_off && is_interruptable) ::
        (generate_response_loop allow_agent_to_be_cut_off rest function_call).1,
      (generate_response_loop allow_agent_to_be_cut_off rest function_call).2)

/-- `RespondAgent.handle_generate_response`, with the lazy response stream
passed in as a finite list of `(item, is_interruptable)` pairs. Returns the
emitted messages, the recorded function call (dispatched afterwards when
actions are configured), and the returned `should_stop` — which in the
source is the literal `return False` (`TODO: implement should_stop for
generate_responses`). -/
def handle_generate_response (allow_agent_to_be_cut_off : Bool)
    (responses : List ((String ⊕ FunctionCall) × Bool)) :
    List AgentResponse × Option FunctionCall × Bool :=
  ((generate_response_loop allow_agent_to_be_cut_off responses none).1,
    (generate_response_loop allow_agent_to_be_cut_off responses none).2,
    false)

/-- Outcome of the 100 ms bounded wait on the goodbye-detection task in
`RespondAgent.process`: the task resolved in time with a boolean, or the
wait timed out. -/
inductive GoodbyeOutcome
  | resolved (goodbye_detected : Bool)
  | timed_out
  deriving Repr, DecidableEq

/-- True exactly for an `ActionResultAgentInput` with `is_quiet = True`:
`process` appends the action-finish log entry and returns without generating
a response for such inputs. -/
def AgentInput.is_quiet_action : AgentInput → Bool
  | .action_result_input _ _ is_quiet => is_quiet
  | .transcription_input _ _ => false

/-- The trailing goodbye block of `RespondAgent.process`: when a
goodbye-detection task was started (`end_conversation_on_goodbye`), the 100
ms bounded wait emits a `stop` exactly when the task resolved `True` in
time; on a `False` resolution or a timeout nothing is emitted. -/
def goodbye_events (end_conversation_on_goodbye : Bool)
    (goodbye_outcome : GoodbyeOutcome) : List AgentResponse :=
  if end_conversation_on_goodbye then
    match goodbye_outcome with
    | .resolved true => [.stop]
    | _ => []
  else []

/-- `RespondAgent.process` on one dequeued agent input, as the list of
`AgentResponse` payloads it emits, in order. Skips everything when muted;
for a quiet action result only the transcript is updated and nothing is
emitted; otherwise it optionally emits `filler_audio`, dispatches to the
streaming or non-streaming turn handler, emits `stop` and returns when that
handler reports `should_stop`, and otherwise emits `stop` exactly when the
goodbye path does. -/
def process (cfg : AgentConfigModel) (is_muted : Bool) (agent_input : AgentInput)
    (respond_outcome : Except String (Option String × Bool))
    (responses : List ((String ⊕ FunctionCall) × Bool))
    (goodbye_outcome : GoodbyeOutcome) : List AgentResponse :=
  if is_muted then []
  else if agent_input.is_quiet_action then []
  else
    let filler_events : List AgentResponse :=
      if cfg.send_filler_audio then [.filler_audio] else []
    let result : List AgentResponse × Bool :=
      if cfg.generate_responses then
        ((handle_generate_response cfg.allow_agent_to_be_cut_off responses).1,
          (handle_generate_response cfg.allow_agent_to_be_cut_off responses).2.2)
      else
        handle_respond respond_outcome cfg.allow_agent_to_be_cut_off
    if result.2 then
      filler_events ++ result.1 ++ [.stop]
    else
      filler_events ++ result.1 ++
        goodbye_events cfg.end_conversation_on_goodbye goodbye_outcome

/-- Helper: the streaming response loop never emits a `stop` payload — every
element it produces is a `message`. -/
theorem generate_response_loop_no_stop (allow_agent_to_be_cut_off : Bool) :
    ∀ (responses : List ((String ⊕ FunctionCall) × Bool))
      (function_call : Option FunctionCall),
      AgentResponse.stop ∉
        (generate_response_loop allow_agent_to_be_cut_off responses
          function_call).1 := by
  intro responses
  induction responses with
  | nil =>
    intro function_call
    simp [generate_response_loop]
  | cons hd rest ih =>
    intro function_call
    obtain ⟨item, is_inter⟩ := hd
    cases item with
    | inl text =>
      simp only [generate_response_loop, List.mem_cons, not_or]
      exact ⟨by simp, ih function_call⟩
    | inr f =>
      simp only [generate_response_loop]
      exact ih (some f)

/-- Helper: a `stop` payload in the goodbye block means goodbye detection
was enabled and the goodbye task resolved `True` within the wait. -/
theorem goodbye_events_stop (end_conversation_on_goodbye : Bool)
    (goodbye_outcome : GoodbyeOutcome)
    (h : AgentResponse.stop ∈
      goodbye_events end_conversation_on_goodbye goodbye_outcome) :
    end_conversation_on_goodbye = true ∧
      goodbye_outcome = .resolved true := by
  cases goodbye_outcome with
  | timed_out =>
    exfalso
    by_cases hg : end_conversation_on_goodbye <;> simp [goodbye_events, hg] at h
  | resolved b =>
    cases b with
    | false =>
      exfalso
      by_cases hg : end_conversation_on_goodbye <;> simp [goodbye_events, hg] at h
    | true =>
      refine ⟨?_, rfl⟩
      by_cases hg : end_conversation_on_goodbye
      · exact hg
      · exfalso
        simp [goodbye_events, hg] at h

/-- Helper: in streaming mode the emitted list is the filler block, the
loop's messages, and the goodbye block; a `stop` in it can only come from
the goodbye block. -/
theorem stop_membership_core (allow_agent_to_be_cut_off filler_on
    end_conversation_on_goodbye : Bool) (goodbye_outcome : GoodbyeOutcome)
    (responses : List ((String ⊕ FunctionCall) × Bool))
    (hmem : AgentResponse.stop ∈
      (if filler_on then [AgentResponse.filler_audio] else []) ++
        (generate_response_loop allow_agent_to_be_cut_off responses none).1 ++
        goodbye_events end_conversation_on_goodbye goodbye_outcome) :
    end_conversation_on_goodbye = true ∧
      goodbye_outcome = .resolved true := by
  rcases List.mem_append.mp hmem with h12 | h3
  · rcases List.mem_append.mp h12 with h1 | h2
    · by_cases hf : filler_on
      · rw [if_pos hf] at h1
        simp at h1
      · rw [if_neg hf] at h1
        simp at h1
    · exact absurd h2
        (generate_response_loop_no_stop allow_agent_to_be_cut_off responses none)
  · exact goodbye_events_stop end_conversation_on_goodbye goodbye_outcome h3

/-! ### Claims C1 and C9 -/

/-- Concrete agent configuration used at the C1 failing input:
non-streaming mode, no cut-off, no filler audio, no goodbye detection. -/
def C1_config : AgentConfigModel :=
  { generate_responses := false
    allow_agent_to_be_cut_off := false
    send_filler_audio := false
    end_conversation_on_goodbye := false }

/-- C1 (code bug): when the underlying `respond` call raises, the source's
`except` branch logs the error, dead-stores `response = None`, and then
`return True` — so `handle_respond` reports `should_stop = True` and the
enclosing `process` call emits an `AgentResponseStop`. Evaluated here at a
failing input: no `AgentResponseMessage` is emitted, but contrary to the
claim (and to the spec's "no response, do not stop") the turn ends the
conversation with a `stop` event. -/
theorem C1_respond_error_emits_stop :
    handle_respond (.error "model raised") false = ([], true) ∧
      process C1_config false
        (.transcription_input "conv" ⟨"hello", 1, true, false⟩)
        (.error "model raised") [] .timed_out = [.stop] :=
  ⟨rfl, rfl⟩

/-- C9: the streaming turn handler `handle_generate_response` returns
`False` for every transcription and every lazy response sequence (its
`should_stop` is the literal `return False`), and consequently, in
streaming mode (`generate_responses = true`), a `stop` event can be emitted
by `process` only via the goodbye-detection path: if `stop` is among the
emitted responses then goodbye detection was enabled and the goodbye task
resolved `True` within the bounded wait. -/
theorem C9_streaming_never_should_stop
    (allow_agent_to_be_cut_off : Bool)
    (responses : List ((String ⊕ FunctionCall) × Bool)) :
    (handle_generate_response allow_agent_to_be_cut_off responses).2.2 = false ∧
      ∀ (cfg : AgentConfigModel) (is_muted : Bool) (agent_input : AgentInput)
        (respond_outcome : Except String (Option String × Bool))
        (goodbye_outcome : GoodbyeOutcome),
        cfg.generate_responses = true →
        AgentResponse.stop ∈
          process cfg is_muted agent_input respond_outcome responses
            goodbye_outcome →
        cfg.end_conversation_on_goodbye = true ∧
          goodbye_outcome = .resolved true := by
  refine ⟨rfl, ?_⟩
  intro cfg is_muted agent_input respond_outcome goodbye_outcome hgen hmem
  obtain ⟨g, a, f, gb⟩ := cfg
  have hg : g = true := hgen
  subst hg
  cases is_muted with
  | true => simp [process] at hmem
  | false =>
    cases agent_input with
    | transcription_input conversation_id transcription =>
      exact stop_membership_core a f gb goodbye_outcome responses hmem
    | action_result_input conversation_id action_response_json is_quiet =>
      cases is_quiet with
      | true => simp [process, AgentInput.is_quiet_action] at hmem
      | false => exact stop_membership_core a f gb goodbye_outcome responses hmem

/-- Concrete agent configuration used in the C9 witness: streaming mode
with goodbye detection enabled. -/
def C9_config : AgentConfigModel :=
  { generate_responses := true
    allow_agent_to_be_cut_off := true
    send_filler_audio := false
    end_conversation_on_goodbye := true }

theorem C9_streaming_never_should_stop_witness :
    (handle_generate_response true []).2.2 = false ∧
      (C9_config.end_conversation_on_goodbye = true ∧
        GoodbyeOutcome.resolved true = GoodbyeOutcome.resolved true) := by
  have h := C9_streaming_never_should_stop true []
  refine ⟨h.1, ?_⟩
  exact h.2 C9_config false
    (.transcription_input "conv" ⟨"bye", 1, true, false⟩) (.ok (none, false))
    (.resolved true) rfl (by rw [show process C9_config false
      (.transcription_input "conv" ⟨"bye", 1, true, false⟩) (.ok (none, false))
      [] (.resolved true) = [AgentResponse.stop] from rfl]; exact List.mem_singleton.mpr rfl)

/-! ## Synthesizer (vocode/streaming/synthesizer/base_synthesizer.py) -/

/-- Audio encodings (vocode/streaming/models/audio_encoding.py). -/
inductive AudioEncoding
  | LINEAR16
  | MULAW
  deriving Repr, DecidableEq

/-- The `SynthesizerConfig` fields read by the embedded synthesizer code. -/
structure SynthesizerConfig where
  sampling_rate : ℕ
  audio_encoding : AudioEncoding
  should_encode_as_wav : Bool
  deriving Repr, DecidableEq

/-- `SynthesisResult.ChunkResult`: one yielded chunk and its
`is_last_chunk` flag. -/
structure ChunkResult where
  chunk : List Nat
  is_last_chunk : Bool
  deriving Repr, DecidableEq

/-- The chunking loop shared verbatim by
`BaseSynthesizer.create_synthesis_result_from_wav.chunk_generator` and
`FillerAudio.create_synthesis_result.chunk_generator`:
`for i in range(0, len(output_bytes), chunk_size)`, yielding
`(chunk_transform(output_bytes[i:]), True)` when `i + chunk_size >
len(output_bytes)` and `(chunk_transform(output_bytes[i:i+chunk_size]),
False)` otherwise. Embedded by recursion on the remaining bytes
(`output_bytes[i:]`). Python's `range` raises `ValueError` on step 0;
that unreachable-under-the-precondition case is embedded as yielding no
chunks. -/
def chunk_loop (chunk_transform : List Nat → List Nat) (chunk_size : ℕ) :
    List Nat → List ChunkResult
  | [] => []
  | b :: bs =>
    if h0 : chunk_size = 0 then []
    else if hlt : (b :: bs).length < chunk_size then
      [⟨chunk_transform (b :: bs), true⟩]
    else
      ⟨chunk_transform ((b :: bs).take chunk_size), false⟩ ::
        chunk_loop chunk_transform chunk_size ((b :: bs).drop chunk_size)
termination_by l => l.length
decreasing_by
  simp only [List.length_drop]
  simp only [List.length_cons] at hlt ⊢
  omega

/-- `BaseSynthesizer.create_synthesis_result_from_wav`'s chunk stream.
`output_bytes` is the result of `convert_wav` (external audio utility) on
the input file; `chunk_transform` is `encode_as_wav` when
`should_encode_as_wav` is configured and the identity otherwise. -/
def create_synthesis_result_from_wav (chunk_transform : List Nat → List Nat)
    (chunk_size : ℕ) (output_bytes : List Nat) : List ChunkResult :=
  chunk_loop chunk_transform chunk_size output_bytes

/-- `FillerAudio.create_synthesis_result`'s chunk stream over the
pre-rendered `audio_data`, with `chunk_size = get_chunk_size_per_second(...)
* seconds_per_chunk`; `chunk_transform` is `encode_as_wav` when
`should_encode_as_wav` is configured and the identity otherwise. -/
def FillerAudio_create_synthesis_result (chunk_transform : List Nat → List Nat)
    (chunk_size_per_second seconds_per_chunk : ℕ) (audio_data : List Nat) :
    List ChunkResult :=
  chunk_loop chunk_transform (chunk_size_per_second * seconds_per_chunk)
    audio_data

/-- Helper: the chunk loop on a nonempty input with a positive chunk size
yields at least one chunk. -/
theorem chunk_loop_ne_nil (chunk_transform : List Nat → List Nat)
    (chunk_size : ℕ) (hcs : 1 ≤ chunk_size) (b : Nat) (bs : List Nat) :
    chunk_loop chunk_transform chunk_size (b :: bs) ≠ [] := by
  rw [chunk_loop, dif_neg (by omega)]
  by_cases hlt : (b :: bs).length < chunk_size
  · rw [dif_pos hlt]
    simp
  · rw [dif_neg hlt]
    simp

/-- Helper: the concatenation of the (untransformed) chunks equals the full
input byte string. -/
theorem chunk_loop_flatten (chunk_size : ℕ) (hcs : 1 ≤ chunk_size) :
    ∀ output_bytes : List Nat,
      ((chunk_loop id chunk_size output_bytes).map ChunkResult.chunk).flatten =
        output_bytes := by
  have main : ∀ (n : ℕ) (output_bytes : List Nat), output_bytes.length ≤ n →
      ((chunk_loop id chunk_size output_bytes).map ChunkResult.chunk).flatten =
        output_bytes := by
    intro n
    induction n with
    | zero =>
      intro output_bytes hb
      have hnil : output_bytes = [] := List.eq_nil_of_length_eq_zero (by omega)
      subst hnil
      simp [chunk_loop]
    | succ n ih =>
      intro output_bytes hb
      match output_bytes with
      | [] => simp [chunk_loop]
      | b :: bs =>
        rw [chunk_loop, dif_neg (by omega)]
        by_cases hlt : (b :: bs).length < chunk_size
        · rw [dif_pos hlt]
          simp
        · rw [dif_neg hlt]
          simp only [List.map_cons, List.flatten_cons, id_eq]
          rw [ih ((b :: bs).drop chunk_size)
            (by simp only [List.length_drop]; simp only [List.length_cons] at hb ⊢; omega)]
          exact List.take_append_drop chunk_size (b :: bs)
  intro output_bytes
  exact main output_bytes.length output_bytes le_rfl

/-- Helper: the `is_last_chunk` flags of the chunk loop. When the input
length is not a multiple of the chunk size, all flags are `false` except
the final one; when it is a multiple (including the empty input), every
flag is `false`. -/
theorem chunk_loop_flags (chunk_transform : List Nat → List Nat)
    (chunk_size : ℕ) (hcs : 1 ≤ chunk_size) :
    ∀ output_bytes : List Nat,
      (output_bytes.length % chunk_size = 0 →
        (chunk_loop chunk_transform chunk_size output_bytes).map
            ChunkResult.is_last_chunk =
          List.replicate
            (chunk_loop chunk_transform chunk_size output_bytes).length false) ∧
      (output_bytes.length % chunk_size ≠ 0 →
        (chunk_loop chunk_transform chunk_size output_bytes).map
            ChunkResult.is_last_chunk =
          List.replicate
            ((chunk_loop chunk_transform chunk_size output_bytes).length - 1)
            false ++ [true]) := by
  have main : ∀ (n : ℕ) (output_bytes : List Nat), output_bytes.length ≤ n →
      (output_bytes.length % chunk_size = 0 →
        (chunk_loop chunk_transform chunk_size output_bytes).map
            ChunkResult.is_last_chunk =
          List.replicate
            (chunk_loop chunk_transform chunk_size output_bytes).length false) ∧
      (output_bytes.length % chunk_size ≠ 0 →
        (chunk_loop chunk_transform chunk_size output_bytes).map
            ChunkResult.is_last_chunk =
          List.replicate
            ((chunk_loop chunk_transform chunk_size output_bytes).length - 1)
            false ++ [true]) := by
    intro n
    induction n with
    | zero =>
      intro output_bytes hb
      have hnil : output_bytes = [] := List.eq_nil_of_length_eq_zero (by omega)
      subst hnil
      simp [chunk_loop]
    | succ n ih =>
      intro output_bytes hb
      match output_bytes with
      | [] => simp [chunk_loop]
      | b :: bs =>
        rw [chunk_loop, dif_neg (by omega)]
        by_cases hlt : (b :: bs).length < chunk_size
        · rw [dif_pos hlt]
          constructor
          · intro hmod
            exact absurd hmod (by rw [Nat.mod_eq_of_lt hlt]; simp)
          · intro _
            simp
        · rw [dif_neg hlt]
          have hle : chunk_size ≤ (b :: bs).length := le_of_not_lt hlt
          have hmod_eq : (b :: bs).length % chunk_size =
              ((b :: bs).drop chunk_size).length % chunk_size := by
            rw [List.length_drop]
            exact Nat.mod_eq_sub_mod hle
          have hdrop_len : ((b :: bs).drop chunk_size).length ≤ n := by
            simp only [List.length_drop]
            simp only [List.length_cons] at hb ⊢
            omega
          obtain ⟨ih0, ih1⟩ := ih ((b :: bs).drop chunk_size) hdrop_len
          constructor
          · intro hmod
            rw [hmod_eq] at hmod
            simp only [List.map_cons, List.length_cons]
            rw [ih0 hmod, List.replicate_succ]
          · intro hmod
            rw [hmod_eq] at hmod
            have hdrop_pos : ((b :: bs).drop chunk_size).length ≠ 0 := by
              intro hz
              rw [hz] at hmod
              exact hmod (Nat.zero_mod chunk_size)
            obtain ⟨d, ds, hds⟩ : ∃ d ds, (b :: bs).drop chunk_size = d :: ds := by
              cases hd : (b :: bs).drop chunk_size with
              | nil => exact absurd (by rw [hd]; rfl) hdrop_pos
              | cons d ds => exact ⟨d, ds, rfl⟩
            have hne : chunk_loop chunk_transform chunk_size
                ((b :: bs).drop chunk_size) ≠ [] := by
              rw [hds]
              exact chunk_loop_ne_nil chunk_transform chunk_size hcs d ds
            have hlen : 1 ≤ (chunk_loop chunk_transform chunk_size
                ((b :: bs).drop chunk_size)).length :=
              Nat.one_le_iff_ne_zero.mpr
                (fun hz => hne (List.eq_nil_of_length_eq_zero hz))
            simp only [List.map_cons, List.length_cons]
            rw [ih1 hmod]
            have : (chunk_loop chunk_transform chunk_size
                ((b :: bs).drop chunk_size)).length + 1 - 1 =
                ((chunk_loop chunk_transform chunk_size
                  ((b :: bs).drop chunk_size)).length - 1) + 1 := by
              omega
            rw [this, List.replicate_succ, List.cons_append]
  intro output_bytes
  exact main output_bytes.length output_bytes le_rfl

/-! ### Claims C5 and C8 -/

/-- C5 counterexample: with `chunk_size = 2` and audio of length exactly 2
(an exact multiple of the chunk size), both chunk streams consist of a
single chunk whose `is_last_chunk` flag is `false` — no chunk is flagged
last, contradicting "exactly one chunk has `is_last_chunk = true`"; and the
empty audio string yields no chunks at all. -/
theorem C5_exact_multiple_no_last_flag :
    create_synthesis_result_from_wav id 2 [0, 1] = [⟨[0, 1], false⟩] ∧
      ((create_synthesis_result_from_wav id 2 [0, 1]).filter
        (fun c => c.is_last_chunk)) = [] ∧
      create_synthesis_result_from_wav id 2 [] = [] ∧
      FillerAudio_create_synthesis_result id 2 1 [0, 1] = [⟨[0, 1], false⟩] := by
  refine ⟨?_, ?_, ?_, ?_⟩ <;>
    simp [create_synthesis_result_from_wav, FillerAudio_create_synthesis_result,
      chunk_loop, List.filter]

/-- C5 as amended: for every `chunk_size ≥ 1` and every audio byte string,
in both `create_synthesis_result_from_wav` and
`FillerAudio.create_synthesis_result` the concatenation of the
(untransformed) chunks equals the full encoded audio; when the audio length
is NOT an exact multiple of `chunk_size`, exactly one chunk has
`is_last_chunk = true` and it is the last one yielded; when the length IS
an exact multiple (including the empty string, which yields no chunks at
all), no chunk is flagged last. -/
theorem C5_chunk_stream_amended (chunk_transform : List Nat → List Nat)
    (chunk_size chunk_size_per_second seconds_per_chunk : ℕ)
    (hcs : 1 ≤ chunk_size)
    (hfs : 1 ≤ chunk_size_per_second * seconds_per_chunk)
    (output_bytes audio_data : List Nat) :
    (((create_synthesis_result_from_wav id chunk_size output_bytes).map
        ChunkResult.chunk).flatten = output_bytes) ∧
      (output_bytes.length % chunk_size ≠ 0 →
        (create_synthesis_result_from_wav chunk_transform chunk_size
            output_bytes).map ChunkResult.is_last_chunk =
          List.replicate
            ((create_synthesis_result_from_wav chunk_transform chunk_size
              output_bytes).length - 1) false ++ [true]) ∧
      (output_bytes.length % chunk_size = 0 →
        (create_synthesis_result_from_wav chunk_transform chunk_size
            output_bytes).map ChunkResult.is_last_chunk =
          List.replicate
            ((create_synthesis_result_from_wav chunk_transform chunk_size
              output_bytes).length) false) ∧
      (((FillerAudio_create_synthesis_result id chunk_size_per_second
          seconds_per_chunk audio_data).map ChunkResult.chunk).flatten =
        audio_data) ∧
      (audio_data.length % (chunk_size_per_second * seconds_per_chunk) ≠ 0 →
        (FillerAudio_create_synthesis_result chunk_transform
            chunk_size_per_second seconds_per_chunk audio_data).map
          ChunkResult.is_last_chunk =
          List.replicate
            ((FillerAudio_create_synthesis_result chunk_transform
              chunk_size_per_second seconds_per_chunk audio_data).length - 1)
            false ++ [true]) ∧
      (audio_data.length % (chunk_size_per_second * seconds_per_chunk) = 0 →
        (FillerAudio_create_synthesis_result chunk_transform
            chunk_size_per_second seconds_per_chunk audio_data).map
          ChunkResult.is_last_chunk =
          List.replicate
            ((FillerAudio_create_synthesis_result chunk_transform
              chunk_size_per_second seconds_per_chunk audio_data).length)
            false) := by
  refine ⟨chunk_loop_flatten chunk_size hcs output_bytes,
    (chunk_loop_flags chunk_transform chunk_size hcs output_bytes).2,
    (chunk_loop_flags chunk_transform chunk_size hcs output_bytes).1,
    chunk_loop_flatten _ hfs audio_data,
    (chunk_loop_flags chunk_transform _ hfs audio_data).2,
    (chunk_loop_flags chunk_transform _ hfs audio_data).1⟩

theorem C5_chunk_stream_amended_witness :
    (((create_synthesis_result_from_wav id 2 [1, 2, 3]).map
        ChunkResult.chunk).flatten = [1, 2, 3]) ∧
      (create_synthesis_result_from_wav id 2 [1, 2, 3]).map
          ChunkResult.is_last_chunk =
        List.replicate
          ((create_synthesis_result_from_wav id 2 [1, 2, 3]).length - 1)
          false ++ [true] ∧
      (FillerAudio_create_synthesis_result id 2 2 [1, 2, 3, 4]).map
          ChunkResult.is_last_chunk =
        List.replicate
          ((FillerAudio_create_synthesis_result id 2 2 [1, 2, 3, 4]).length)
          false := by
  have h := C5_chunk_stream_amended id 2 2 2 (by decide) (by decide)
    [1, 2, 3] [1, 2, 3, 4]
  exact ⟨h.1, h.2.1 (by decide), h.2.2.2.2.2 (by decide)⟩

/-- The μ-law sampling-rate assertion in `BaseSynthesizer.__init__`: when
the configured audio encoding is MULAW, `assert sampling_rate == 8000`;
otherwise the check is not performed. -/
def BaseSynthesizer_init_check (synthesizer_config : SynthesizerConfig) :
    Except String Unit :=
  if synthesizer_config.audio_encoding = .MULAW then
    if synthesizer_config.sampling_rate = 8000 then
      .ok ()
    else
      .error "MuLaw encoding only supports 8kHz sampling rate"
  else
    .ok ()

/-- C8: constructing a `BaseSynthesizer` whose config uses MULAW audio
encoding fails the init assertion for every sampling rate other than 8000,
succeeds on this check at exactly 8000, and under the precondition
`sampling_rate = 8000` the rejection branch is unreachable. -/
theorem C8_mulaw_requires_8khz (sampling_rate : ℕ)
    (should_encode_as_wav : Bool) :
    (sampling_rate ≠ 8000 →
      BaseSynthesizer_init_check
          ⟨sampling_rate, .MULAW, should_encode_as_wav⟩ =
        .error "MuLaw encoding only supports 8kHz sampling rate") ∧
      BaseSynthesizer_init_check ⟨8000, .MULAW, should_encode_as_wav⟩ =
        .ok () ∧
      (sampling_rate = 8000 →
        BaseSynthesizer_init_check
            ⟨sampling_rate, .MULAW, should_encode_as_wav⟩ = .ok ()) := by
  refine ⟨?_, rfl, ?_⟩
  · intro hne
    simp [BaseSynthesizer_init_check, hne]
  · intro heq
    subst heq
    rfl

theorem C8_mulaw_requires_8khz_witness :
    BaseSynthesizer_init_check ⟨16000, .MULAW, false⟩ =
        .error "MuLaw encoding only supports 8kHz sampling rate" ∧
      BaseSynthesizer_init_check ⟨8000, .MULAW, false⟩ = .ok () :=
  ⟨(C8_mulaw_requires_8khz 16000 false).1 (by decide),
    (C8_mulaw_requires_8khz 16000 false).2.1⟩

/-! ### Message cutoff (claim C7) -/

/-- Python `int(x)` on an exact (rational-valued) float: truncation toward
zero. -/
def python_int (q : ℚ) : ℤ :=
  if q < 0 then ⌈q⌉ else ⌊q⌋

/-- Python slice `xs[:k]` with a possibly negative bound: for `k ≥ 0` the
first `k` elements, for `k < 0` all but the last `-k` elements (clamped at
the empty list). -/
def python_slice {α : Type} (xs : List α) (k : ℤ) : List α :=
  if 0 ≤ k then xs.take k.toNat else xs.take (xs.length - (-k).toNat)

/-- `BaseSynthesizer.get_message_cutoff_from_total_response_length`. The
message text is given as its character list; floats are idealized as
rationals. `estimated_output_seconds = size_of_output / sampling_rate` is
computed first (Python raises `ZeroDivisionError` on a zero sampling rate),
the empty text is returned as-is, and otherwise the cutoff is
`message.text[: int(seconds / estimated_output_seconds_per_char)]`, raising
`ZeroDivisionError` when the per-character estimate is zero (i.e. when
`size_of_output = 0`). `none` models a raise. -/
def get_message_cutoff_from_total_response_length (sampling_rate : ℚ)
    (text : List Char) (seconds : ℚ) (size_of_output : ℕ) :
    Option (List Char) :=
  if sampling_rate = 0 then none
  else
    let estimated_output_seconds : ℚ := (size_of_output : ℚ) / sampling_rate
    if text = [] then some text
    else
      let estimated_output_seconds_per_char : ℚ :=
        estimated_output_seconds / (text.length : ℚ)
      if estimated_output_seconds_per_char = 0 then none
      else
        some (python_slice text
          (python_int (seconds / estimated_output_seconds_per_char)))

/-- TreebankWordDetokenizer composed after `word_tokenize`, applied to the
leading token prefix. Modelled from the spec: the message is given as its
list of word tokens ("recovered by detokenizing the leading N
word-tokens") and detokenization joins word tokens with single spaces.
`word_tokenize`/`TreebankWordDetokenizer` themselves are external NLTK
collaborators. -/
def detokenize : List (List Char) → List Char
  | [] => []
  | [t] => t
  | t :: u :: rest => t ++ ' ' :: detokenize (u :: rest)

/-- `BaseSynthesizer.get_message_cutoff_from_voice_speed`:
`words_per_second = words_per_minute / 60`, `estimated_words_spoken =
math.floor(words_per_second * seconds)` (`math.floor` rounds toward
negative infinity), and the detokenization of
`tokens[:estimated_words_spoken]`. -/
def get_message_cutoff_from_voice_speed (tokens : List (List Char))
    (seconds : ℚ) (words_per_minute : ℤ) : List Char :=
  let words_per_second : ℚ := (words_per_minute : ℚ) / 60
  let estimated_words_spoken : ℤ := ⌊words_per_second * seconds⌋
  detokenize (python_slice tokens estimated_words_spoken)

/-- Helper: detokenizing a longer prefix of the token list extends the
detokenization of a shorter one. -/
theorem detokenize_take_mono (tokens : List (List Char)) :
    ∀ n1 n2 : ℕ, n1 ≤ n2 →
      detokenize (tokens.take n1) <+: detokenize (tokens.take n2) := by
  induction tokens with
  | nil =>
    intro n1 n2 _
    simp [detokenize]
  | cons t rest ih =>
    intro n1 n2 h
    cases n1 with
    | zero =>
      simpa [detokenize] using List.nil_prefix
    | succ m1 =>
      cases n2 with
      | zero => omega
      | succ m2 =>
        have hm : m1 ≤ m2 := Nat.succ_le_succ_iff.mp h
        simp only [List.take_succ_cons]
        cases hA : rest.take m1 with
        | nil =>
          cases hB : rest.take m2 with
          | nil => exact List.prefix_refl _
          | cons b bs =>
            rw [detokenize]
            exact List.prefix_append t (' ' :: detokenize (b :: bs))
        | cons a as =>
          have hm1pos : m1 ≠ 0 := by
            intro hz
            rw [hz, List.take_zero] at hA
            exact List.noConfusion hA
          have hrest : rest ≠ [] := by
            intro hz
            rw [hz, List.take_nil] at hA
            exact List.noConfusion hA
          obtain ⟨b, bs, hB⟩ : ∃ b bs, rest.take m2 = b :: bs := by
            cases hb : rest.take m2 with
            | nil =>
              exfalso
              rw [List.take_eq_nil_iff] at hb
              rcases hb with hz | hz
              · omega
              · exact hrest hz
            | cons b bs => exact ⟨b, bs, rfl⟩
          rw [hB]
          have hL : detokenize (t :: a :: as) =
              t ++ ' ' :: detokenize (a :: as) := rfl
          have hR : detokenize (t :: b :: bs) =
              t ++ ' ' :: detokenize (b :: bs) := rfl
          rw [hL, hR]
          have hih := ih m1 m2 hm
          rw [hA, hB] at hih
          obtain ⟨u, hu⟩ := hih
          refine ⟨u, ?_⟩
          simp only [List.append_assoc, List.cons_append, hu]

/-- Helper: on a nonzero sampling rate, nonempty text and nonzero
per-character estimate, the length-based cutoff is the Python slice at the
truncated quotient. -/
theorem cutoff_total_eq (sampling_rate : ℚ) (text : List Char) (seconds : ℚ)
    (size_of_output : ℕ) (hrate : ¬sampling_rate = 0) (htext : ¬text = [])
    (hpc : ¬((size_of_output : ℚ) / sampling_rate / (text.length : ℚ) = 0)) :
    get_message_cutoff_from_total_response_length sampling_rate text seconds
        size_of_output =
      some (python_slice text (python_int (seconds /
        ((size_of_output : ℚ) / sampling_rate / (text.length : ℚ))))) := by
  rw [get_message_cutoff_from_total_response_length]
  simp only [if_neg hrate, if_neg htext, if_neg hpc]

/-- C7 counterexample: the claim fails on
`get_message_cutoff_from_total_response_length` at concrete inputs. With
`sampling_rate = 1`, text "ab" and `size_of_output = 0` the total duration
is `0`, so at `seconds = 0 ≥ duration` the claim demands the full text, but
the function raises `ZeroDivisionError` (`none`). And with
`size_of_output = 2` the function is not monotone across negative seconds:
at `seconds = -1` it returns "a" (Python's negative slice keeps one
character) while at the larger `seconds = 0` it returns the shorter "". -/
theorem C7_cutoff_counterexample :
    get_message_cutoff_from_total_response_length 1 ['a', 'b'] 0 0 = none ∧
      get_message_cutoff_from_total_response_length 1 ['a', 'b'] (-1) 2 =
        some ['a'] ∧
      get_message_cutoff_from_total_response_length 1 ['a', 'b'] 0 2 =
        some [] := by
  have hceil : ⌈(-1 : ℚ)⌉ = -1 := by
    rw [show ((-1 : ℚ)) = ((-1 : ℤ) : ℚ) by norm_num, Int.ceil_intCast]
  refine ⟨?_, ?_, ?_⟩ <;>
    norm_num [get_message_cutoff_from_total_response_length, python_int,
      python_slice, hceil, List.cons_ne_nil]

/-- C7 as amended: restricted to a positive sampling rate, a nonzero total
output size and nonnegative seconds, `get_message_cutoff_from_total_response_length`
is monotone non-decreasing in the seconds argument (the earlier cutoff is a
prefix of the later one) and returns the full message text whenever seconds
is at least the total audio duration `size_of_output / sampling_rate`; and
`get_message_cutoff_from_voice_speed` (which does not know the audio size)
is likewise monotone non-decreasing in seconds for a nonnegative
words-per-minute setting, and returns the full detokenized text as soon as
the estimated word count reaches the token count. -/
theorem C7_cutoff_amended :
    (∀ (sampling_rate : ℚ) (text : List Char) (size_of_output : ℕ)
      (s1 s2 : ℚ), 0 < sampling_rate → 1 ≤ size_of_output → 0 ≤ s1 → s1 ≤ s2 →
      ∃ r1 r2 : List Char,
        get_message_cutoff_from_total_response_length sampling_rate text s1
            size_of_output = some r1 ∧
          get_message_cutoff_from_total_response_length sampling_rate text s2
            size_of_output = some r2 ∧
          r1 <+: r2) ∧
      (∀ (sampling_rate : ℚ) (text : List Char) (size_of_output : ℕ)
        (seconds : ℚ), 0 < sampling_rate → 1 ≤ size_of_output →
        (size_of_output : ℚ) / sampling_rate ≤ seconds →
        get_message_cutoff_from_total_response_length sampling_rate text
          seconds size_of_output = some text) ∧
      (∀ (tokens : List (List Char)) (words_per_minute : ℤ) (s1 s2 : ℚ),
        0 ≤ words_per_minute → 0 ≤ s1 → s1 ≤ s2 →
        get_message_cutoff_from_voice_speed tokens s1 words_per_minute <+:
          get_message_cutoff_from_voice_speed tokens s2 words_per_minute) ∧
      (∀ (tokens : List (List Char)) (words_per_minute : ℤ) (seconds : ℚ),
        (tokens.length : ℤ) ≤ ⌊(words_per_minute : ℚ) / 60 * seconds⌋ →
        get_message_cutoff_from_voice_speed tokens seconds words_per_minute =
          detokenize tokens) := by
  have hrate_ne : ∀ sampling_rate : ℚ, 0 < sampling_rate →
      ¬sampling_rate = 0 := fun _ h => ne_of_gt h
  have hper_pos : ∀ (sampling_rate : ℚ) (text : List Char)
      (size_of_output : ℕ), 0 < sampling_rate → 1 ≤ size_of_output →
      text ≠ [] →
      0 < (size_of_output : ℚ) / sampling_rate / (text.length : ℚ) := by
    intro sampling_rate text size_of_output hrate hsize htext
    apply div_pos (div_pos _ hrate)
    · exact_mod_cast List.length_pos.mpr htext
    · exact_mod_cast hsize
  refine ⟨?_, ?_, ?_, ?_⟩
  · intro sampling_rate text size_of_output s1 s2 hrate hsize hs1 hs12
    by_cases htext : text = []
    · subst htext
      refine ⟨[], [], ?_, ?_, List.prefix_refl []⟩ <;>
        simp [get_message_cutoff_from_total_response_length, hrate_ne _ hrate]
    · have hpc := hper_pos sampling_rate text size_of_output hrate hsize htext
      refine ⟨_, _,
        cutoff_total_eq sampling_rate text s1 size_of_output
          (hrate_ne _ hrate) htext (ne_of_gt hpc),
        cutoff_total_eq sampling_rate text s2 size_of_output
          (hrate_ne _ hrate) htext (ne_of_gt hpc), ?_⟩
      have hq1 : (0 : ℚ) ≤ s1 / ((size_of_output : ℚ) / sampling_rate /
          (text.length : ℚ)) := div_nonneg hs1 (le_of_lt hpc)
      have hq2 : (0 : ℚ) ≤ s2 / ((size_of_output : ℚ) / sampling_rate /
          (text.length : ℚ)) := div_nonneg (le_trans hs1 hs12) (le_of_lt hpc)
      have hqle : s1 / ((size_of_output : ℚ) / sampling_rate /
            (text.length : ℚ)) ≤
          s2 / ((size_of_output : ℚ) / sampling_rate / (text.length : ℚ)) :=
        (div_le_div_right hpc).mpr hs12
      rw [python_slice, python_slice, python_int, python_int,
        if_neg (not_lt.mpr hq1), if_neg (not_lt.mpr hq2),
        if_pos (Int.le_floor.mpr (by exact_mod_cast hq1)),
        if_pos (Int.le_floor.mpr (by exact_mod_cast hq2))]
      exact List.take_isPrefix_take.mpr
        (Or.inl (Int.toNat_le_toNat (Int.floor_mono hqle)))
  · intro sampling_rate text size_of_output seconds hrate hsize hsec
    by_cases htext : text = []
    · subst htext
      simp [get_message_cutoff_from_total_response_length, hrate_ne _ hrate]
    · have hpc := hper_pos sampling_rate text size_of_output hrate hsize htext
      rw [cutoff_total_eq sampling_rate text seconds size_of_output
        (hrate_ne _ hrate) htext (ne_of_gt hpc)]
      have hlen_pos : (0 : ℚ) < (text.length : ℚ) := by
        exact_mod_cast List.length_pos.mpr htext
      have hqge : (text.length : ℚ) ≤ seconds /
          ((size_of_output : ℚ) / sampling_rate / (text.length : ℚ)) := by
        rw [le_div_iff₀ hpc]
        calc (text.length : ℚ) * ((size_of_output : ℚ) / sampling_rate /
              (text.length : ℚ)) =
            (size_of_output : ℚ) / sampling_rate := by
              field_simp
              ring
          _ ≤ seconds := hsec
      have hq0 : (0 : ℚ) ≤ seconds /
          ((size_of_output : ℚ) / sampling_rate / (text.length : ℚ)) :=
        le_trans (le_of_lt hlen_pos) hqge
      rw [python_int, if_neg (not_lt.mpr hq0), python_slice,
        if_pos (Int.le_floor.mpr (by exact_mod_cast hq0))]
      congr 1
      apply List.take_of_length_le
      have hfloor : (text.length : ℤ) ≤
          ⌊seconds / ((size_of_output : ℚ) / sampling_rate /
            (text.length : ℚ))⌋ :=
        Int.le_floor.mpr (by exact_mod_cast hqge)
      omega
  · intro tokens words_per_minute s1 s2 hwpm hs1 hs12
    have hwps : (0 : ℚ) ≤ (words_per_minute : ℚ) / 60 :=
      div_nonneg (by exact_mod_cast hwpm) (by norm_num)
    have hprod1 : (0 : ℚ) ≤ (words_per_minute : ℚ) / 60 * s1 :=
      mul_nonneg hwps hs1
    have hprod2 : (0 : ℚ) ≤ (words_per_minute : ℚ) / 60 * s2 :=
      mul_nonneg hwps (le_trans hs1 hs12)
    have hle : (words_per_minute : ℚ) / 60 * s1 ≤
        (words_per_minute : ℚ) / 60 * s2 :=
      mul_le_mul_of_nonneg_left hs12 hwps
    rw [get_message_cutoff_from_voice_speed,
      get_message_cutoff_from_voice_speed, python_slice, python_slice,
      if_pos (Int.le_floor.mpr (by exact_mod_cast hprod1)),
      if_pos (Int.le_floor.mpr (by exact_mod_cast hprod2))]
    exact detokenize_take_mono tokens _ _
      (Int.toNat_le_toNat (Int.floor_mono hle))
  · intro tokens words_per_minute seconds hcount
    have hq0 : (0 : ℤ) ≤ ⌊(words_per_minute : ℚ) / 60 * seconds⌋ :=
      le_trans (by exact_mod_cast Int.ofNat_nonneg tokens.length) hcount
    rw [get_message_cutoff_from_voice_speed, python_slice, if_pos hq0]
    congr 1
    apply List.take_of_length_le
    omega

theorem C7_cutoff_amended_witness :
    (∃ r1 r2 : List Char,
      get_message_cutoff_from_total_response_length 2 ['h', 'i'] 0 2 =
          some r1 ∧
        get_message_cutoff_from_total_response_length 2 ['h', 'i'] 1 2 =
          some r2 ∧
        r1 <+: r2) ∧
      get_message_cutoff_from_total_response_length 2 ['h', 'i'] 1 2 =
        some ['h', 'i'] ∧
      get_message_cutoff_from_voice_speed [['h', 'i']] 0 60 <+:
        get_message_cutoff_from_voice_speed [['h', 'i']] 1 60 ∧
      get_message_cutoff_from_voice_speed [['h', 'i']] 1 60 =
        detokenize [['h', 'i']] := by
  have h := C7_cutoff_amended
  exact ⟨h.1 2 ['h', 'i'] 2 0 1 (by norm_num) (by norm_num) (by norm_num)
      (by norm_num),
    h.2.1 2 ['h', 'i'] 2 1 (by norm_num) (by norm_num) (by norm_num),
    h.2.2.1 [['h', 'i']] 60 0 1 (by norm_num) (by norm_num) (by norm_num),
    h.2.2.2 [['h', 'i']] 60 1 (by norm_num [Int.floor_intCast])⟩

/-! ## Transcriber (vocode/streaming/transcriber/base_transcriber.py)

`create_silent_chunk` builds a zero-filled LINEAR16 buffer of `chunk_size`
bytes and, for a μ-law transcriber config, converts it with
`audioop.lin2ulaw(linear_audio, sample_width)` at the default
`sample_width = 2`. `audioop` is the CPython standard-library module; its
`lin2ulaw` is embedded below following `Modules/audioop.c`
(`st_linear2ulaw`): one output byte per 16-bit input sample. -/

/-- Decode a byte string as consecutive signed 16-bit samples (sample width
2, little-endian host); `none` when the byte count is not a whole number of
frames (`audioop.error: not a whole number of frames`). -/
def decode_sample (lo hi : Nat) : Int :=
  let v := lo + 256 * hi
  if v < 32768 then (v : Int) else (v : Int) - 65536

def bytes_to_samples : List Nat → Option (List Int)
  | [] => some []
  | [_] => none
  | lo :: hi :: rest =>
    (bytes_to_samples rest).map (fun samples => decode_sample lo hi :: samples)

/-- The μ-law segment-end table `seg_uend` from CPython `audioop.c`. -/
def seg_uend : List Int :=
  [0x3F, 0x7F, 0xFF, 0x1FF, 0x3FF, 0x7FF, 0xFFF, 0x1FFF]

/-- `search` from `audioop.c`: index of the first table entry that is at
least `val`, or the table size when there is none. -/
def search (val : Int) (table : List Int) : Nat :=
  (table.findIdx? (fun t => decide (val ≤ t))).getD table.length

/-- `st_linear2ulaw` from CPython `audioop.c`: G.711 μ-law compression of
one 16-bit sample. `pcm_val >> 2` is an arithmetic shift (floor division by
4); BIAS is 0x84 (so the post-shift bias is 0x21 = 33) and CLIP is 32635. -/
def st_linear2ulaw (pcm_val : Int) : Nat :=
  let p1 : Int := Int.fdiv pcm_val 4
  let mask : Nat := if p1 < 0 then 0x7F else 0xFF
  let p2 : Int := if p1 < 0 then -p1 else p1
  let p3 : Int := if p2 > 32635 then 32635 else p2
  let p4 : Nat := (p3 + 33).toNat
  let seg : Nat := search (p4 : Int) seg_uend
  if 8 ≤ seg then
    0x7F ^^^ mask
  else
    ((seg <<< 4) ||| ((p4 >>> (seg + 1)) &&& 0xF)) ^^^ mask

/-- `audioop.lin2ulaw(fragment, 2)`. -/
def lin2ulaw (fragment : List Nat) : Option (List Nat) :=
  (bytes_to_samples fragment).map (List.map st_linear2ulaw)

/-- The `TranscriberConfig` field the embedded transcriber code reads. -/
structure TranscriberConfig where
  audio_encoding : AudioEncoding
  deriving Repr, DecidableEq

/-- `AbstractTranscriber.create_silent_chunk(chunk_size, sample_width=2)`:
a zero-filled chunk of `chunk_size` bytes, returned as-is for LINEAR16 and
μ-law-converted for MULAW. -/
def create_silent_chunk (transcriber_config : TranscriberConfig)
    (chunk_size : Nat) : Option (List Nat) :=
  let linear_audio := List.replicate chunk_size 0
  match transcriber_config.audio_encoding with
  | .LINEAR16 => some linear_audio
  | .MULAW => lin2ulaw linear_audio

/-- `BaseAsyncTranscriber.send_audio` (identical in
`BaseThreadAsyncTranscriber`): the item enqueued on the transcriber's input
queue for one incoming chunk — the chunk itself when not muted, and
`create_silent_chunk(len(chunk))` when muted (`none` models the enqueue
never happening because the silent-chunk construction raises). -/
def send_audio (transcriber_config : TranscriberConfig) (is_muted : Bool)
    (chunk : List Nat) : Option (List Nat) :=
  if !is_muted then
    some chunk
  else
    create_silent_chunk transcriber_config chunk.length

/-- Helper: μ-law compression of an even-length zero fill is a 0xFF fill of
half the length (0xFF is the μ-law code of a zero sample). -/
theorem lin2ulaw_silent (k : Nat) :
    lin2ulaw (List.replicate (2 * k) 0) = some (List.replicate k 255) := by
  induction k with
  | zero => rfl
  | succ n ih =>
    have hrep : List.replicate (2 * (n + 1)) (0 : Nat) =
        0 :: 0 :: List.replicate (2 * n) 0 := by
      rw [show 2 * (n + 1) = 2 * n + 1 + 1 by ring, List.replicate_succ,
        List.replicate_succ]
    rw [hrep, lin2ulaw, bytes_to_samples]
    rw [lin2ulaw] at ih
    cases hbs : bytes_to_samples (List.replicate (2 * n) 0) with
    | none =>
      rw [hbs] at ih
      simp at ih
    | some samples =>
      rw [hbs] at ih
      simp only [Option.map_some'] at ih ⊢
      have hsamples : samples.map st_linear2ulaw = List.replicate n 255 :=
        Option.some.injEq _ _ ▸ ih
      simp only [List.map_cons, hsamples]
      have hzero : st_linear2ulaw (decode_sample 0 0) = 255 := by decide
      rw [hzero, show n + 1 = n + 1 from rfl, List.replicate_succ]

/-- Helper: μ-law compression of an odd-length zero fill raises (`none`):
an odd byte count is not a whole number of 16-bit frames. -/
theorem lin2ulaw_silent_odd (k : Nat) :
    lin2ulaw (List.replicate (2 * k + 1) 0) = none := by
  induction k with
  | zero => rfl
  | succ n ih =>
    have hrep : List.replicate (2 * (n + 1) + 1) (0 : Nat) =
        0 :: 0 :: List.replicate (2 * n + 1) 0 := by
      rw [show 2 * (n + 1) + 1 = 2 * n + 1 + 1 + 1 by ring,
        List.replicate_succ, List.replicate_succ]
    rw [hrep, lin2ulaw, bytes_to_samples]
    rw [lin2ulaw] at ih
    cases hbs : bytes_to_samples (List.replicate (2 * n + 1) 0) with
    | none => simp
    | some samples =>
      rw [hbs] at ih
      simp at ih

/-! ### Claim C6 -/

/-- C6 counterexample: with a MULAW transcriber config and a muted
transcriber, an incoming 4-byte chunk is replaced by the μ-law encoding of
a 4-byte zero fill at sample width 2, which is the 2-byte chunk
`[0xFF, 0xFF]` — not a chunk of equal byte length 4 as the claim states. -/
theorem C6_mulaw_silent_chunk_half_length :
    send_audio ⟨.MULAW⟩ true [1, 2, 3, 4] = some [255, 255] ∧
      (send_audio ⟨.MULAW⟩ true [1, 2, 3, 4]).map List.length = some 2 ∧
      ¬(send_audio ⟨.MULAW⟩ true [1, 2, 3, 4]).map List.length = some 4 := by
  refine ⟨?_, ?_, ?_⟩ <;> decide

/-- C6 as amended: for every chunk passed to `send_audio` while the
transcriber is muted, the enqueued item is an encoding-correct silent
chunk; under LINEAR16 it is a zero fill whose byte length equals
`len(chunk)`, while under MULAW it is the μ-law encoding (all bytes 0xFF,
the μ-law code of silence) of a zero fill of `len(chunk)` bytes at sample
width 2 — so its byte length is `len(chunk) / 2` when `len(chunk)` is
even, and the construction raises (nothing is enqueued) when `len(chunk)`
is odd. When not muted the chunk is enqueued unchanged. -/
theorem C6_muted_silent_chunk_amended (chunk : List Nat) :
    send_audio ⟨.LINEAR16⟩ true chunk =
        some (List.replicate chunk.length 0) ∧
      (∀ k : Nat, chunk.length = 2 * k →
        send_audio ⟨.MULAW⟩ true chunk = some (List.replicate k 255)) ∧
      (∀ k : Nat, chunk.length = 2 * k + 1 →
        send_audio ⟨.MULAW⟩ true chunk = none) ∧
      ∀ transcriber_config : TranscriberConfig,
        send_audio transcriber_config false chunk = some chunk := by
  refine ⟨rfl, ?_, ?_, fun _ => rfl⟩
  · intro k hk
    show create_silent_chunk ⟨.MULAW⟩ chunk.length = _
    rw [create_silent_chunk, hk]
    exact lin2ulaw_silent k
  · intro k hk
    show create_silent_chunk ⟨.MULAW⟩ chunk.length = _
    rw [create_silent_chunk, hk]
    exact lin2ulaw_silent_odd k

theorem C6_muted_silent_chunk_amended_witness :
    send_audio ⟨.LINEAR16⟩ true [9, 9] = some [0, 0] ∧
      send_audio ⟨.MULAW⟩ true [9, 9] = some [255] ∧
      send_audio ⟨.MULAW⟩ true [9] = none ∧
      send_audio ⟨.MULAW⟩ false [9, 9] = some [9, 9] := by
  refine ⟨(C6_muted_silent_chunk_amended [9, 9]).1,
    (C6_muted_silent_chunk_amended [9, 9]).2.1 1 rfl,
    (C6_muted_silent_chunk_amended [9]).2.2.1 0 rfl,
    (C6_muted_silent_chunk_amended [9, 9]).2.2.2 ⟨.MULAW⟩⟩

end Vocode
